import Mathlib

-- Verification of the stasher-web token/payload encoding core.
--
-- Shallow embedding of the strict base64url variant of the codec, token
-- format, payload format and stash-protocol validation logic
-- (src/stasher_app.ts lines 178-519, src/crypto-worker.ts lines 1-302 and
-- the api module concatenated after it).  JavaScript strings are modeled
-- as lists of Unicode scalar values; JavaScript string length (UTF-16
-- code units) and UTF-8 byte length are computed explicitly.  Byte
-- buffers are lists of naturals below 256.  Fallible operations return
-- Option or Except with an error enumeration mirroring the distinct
-- throw sites of the source.

namespace Stasher

-- JS strings as lists of Unicode scalar values.
abbrev JsString := List Char

-- Byte buffers (Uint8Array contents).
abbrev Bytes := List Nat

-- Constants from src/stasher_app.ts (lines 179-184).
def MAX_SECRET_LENGTH : Nat := 4096
def MAX_CIPHERTEXT_BYTES : Nat := 16384
def KEY_LENGTH : Nat := 32
def IV_LENGTH : Nat := 12
def TAG_LENGTH : Nat := 16

-- UTF-16 code-unit count of one scalar value (JS String.prototype.length
-- counts code units; supplementary characters take two).
def utf16CharLen (c : Char) : Nat := if c.toNat < 0x10000 then 1 else 2

-- JS string .length.
def jsStringLength (s : JsString) : Nat := (s.map utf16CharLen).sum

-- UTF-8 encoded byte count of one scalar value (TextEncoder).
def utf8CharLen (c : Char) : Nat :=
  if c.toNat < 0x80 then 1
  else if c.toNat < 0x800 then 2
  else if c.toNat < 0x10000 then 3
  else 4

-- Byte length of the UTF-8 encoding of a string.
def utf8ByteLength (s : JsString) : Nat := (s.map utf8CharLen).sum

-- The WhiteSpace/LineTerminator set recognised by String.prototype.trim.
def isJsWhitespace (c : Char) : Bool :=
  if c.toNat = 9 ∨ c.toNat = 10 ∨ c.toNat = 11 ∨ c.toNat = 12 ∨
     c.toNat = 13 ∨ c.toNat = 32 ∨ c.toNat = 0xA0 ∨ c.toNat = 0x1680 ∨
     (0x2000 ≤ c.toNat ∧ c.toNat ≤ 0x200A) ∨ c.toNat = 0x2028 ∨
     c.toNat = 0x2029 ∨ c.toNat = 0x202F ∨ c.toNat = 0x205F ∨
     c.toNat = 0x3000 ∨ c.toNat = 0xFEFF
  then true else false

-- String.prototype.trim.
def jsTrim (s : JsString) : JsString :=
  ((s.dropWhile isJsWhitespace).reverse.dropWhile isJsWhitespace).reverse

-- normalizeToken (stasher_app.ts line 434): inputs are strings here, so
-- the typeof guard is vacuous and the function is trim.
def normalizeToken (token : JsString) : JsString := jsTrim token

-- ## Base64 / base64url codec
--
-- The source encodes with btoa and decodes with atob (forgiving-base64),
-- converting between the standard and the URL-safe alphabet around them.
-- Bytes are split into 6-bit groups; a final group of one byte yields two
-- sextets, of two bytes three sextets.

-- Standard base64 alphabet, index 0..63 to character.
def b64Char (n : Nat) : Char :=
  if n < 26 then Char.ofNat (65 + n)
  else if n < 52 then Char.ofNat (97 + n - 26)
  else if n < 62 then Char.ofNat (48 + n - 52)
  else if n = 62 then '+'
  else '/'

-- Standard base64 alphabet, character to index (none for non-alphabet).
def b64Index (c : Char) : Option Nat :=
  if 65 ≤ c.toNat ∧ c.toNat ≤ 90 then some (c.toNat - 65)
  else if 97 ≤ c.toNat ∧ c.toNat ≤ 122 then some (c.toNat - 97 + 26)
  else if 48 ≤ c.toNat ∧ c.toNat ≤ 57 then some (c.toNat - 48 + 52)
  else if c.toNat = 43 then some 62
  else if c.toNat = 47 then some 63
  else none

-- Membership in the base64url character class [A-Za-z0-9_-]
-- (the B64URL regex of stasher_app.ts line 190, applied per character).
def b64urlCharOk (c : Char) : Bool :=
  if (65 ≤ c.toNat ∧ c.toNat ≤ 90) ∨ (97 ≤ c.toNat ∧ c.toNat ≤ 122) ∨
     (48 ≤ c.toNat ∧ c.toNat ≤ 57) ∨ c.toNat = 45 ∨ c.toNat = 95
  then true else false

-- B64URL.test: /^[A-Za-z0-9_-]+$/ (nonempty, every char in the class).
def b64urlTest (s : JsString) : Bool := !s.isEmpty && s.all b64urlCharOk

-- Bytes to 6-bit groups, including the short final group.
def bytesToSextets : Bytes → List Nat
  | [] => []
  | [b1] => [b1 / 4, b1 % 4 * 16]
  | [b1, b2] => [b1 / 4, b1 % 4 * 16 + b2 / 16, b2 % 16 * 4]
  | b1 :: b2 :: b3 :: rest =>
      b1 / 4 :: (b1 % 4 * 16 + b2 / 16) :: (b2 % 16 * 4 + b3 / 64) ::
      b3 % 64 :: bytesToSextets rest

-- Number of '=' padding characters btoa appends.
def btoaPadLen (n : Nat) : Nat := (3 - n % 3) % 3

-- btoa on a byte sequence (the binary string holds one byte per char).
def jsBtoa (l : Bytes) : List Char :=
  (bytesToSextets l).map b64Char ++ List.replicate (btoaPadLen l.length) '='

-- toBase64Url char map: '+' to '-' and '/' to '_'.
def toBase64UrlChar (c : Char) : Char :=
  if c.toNat = 43 then '-' else if c.toNat = 47 then '_' else c

-- Remove the trailing '=' run (the /=+$/ replacement).
def stripTrailingEq (s : List Char) : List Char :=
  (s.reverse.dropWhile (fun c => c = '=')).reverse

-- arrayBufferToBase64Url (stasher_app.ts lines 226-244): btoa then the
-- url-safe character substitution and padding removal.  The 32k chunking
-- of the source is a call-arity workaround producing the same string.
def arrayBufferToBase64Url (l : Bytes) : JsString :=
  stripTrailingEq ((jsBtoa l).map toBase64UrlChar)

-- fromBase64Url char map: '-' to '+' and '_' to '/'.
def fromBase64UrlChar (c : Char) : Char :=
  if c.toNat = 45 then '+' else if c.toNat = 95 then '/' else c

-- fromBase64Url (stasher_app.ts lines 271-279): convert the alphabet and
-- restore '=' padding up to a multiple of four.
def fromBase64Url (s : JsString) : List Char :=
  s.map fromBase64UrlChar ++ List.replicate ((4 - s.length % 4) % 4) '='

-- Forgiving-base64 padding removal: when the length is a multiple of
-- four, up to two trailing '=' are dropped.
def stripPad (s : List Char) : List Char :=
  if s.length % 4 = 0 then
    match s.reverse with
    | [] => s
    | [c1] => if c1 = '=' then [] else s
    | c1 :: c2 :: r =>
        if c1 = '=' then
          if c2 = '=' then r.reverse else (c2 :: r).reverse
        else s
  else s

-- 6-bit groups back to bytes; a lone trailing sextet is a decode error,
-- short groups of two or three sextets yield one or two bytes with the
-- low bits discarded (forgiving-base64 does not check them).
def sextetsToBytes : List Nat → Option Bytes
  | [] => some []
  | [_] => none
  | [a, b] => some [a * 4 + b / 16]
  | [a, b, c] => some [a * 4 + b / 16, b % 16 * 16 + c / 4]
  | a :: b :: c :: d :: rest =>
      (sextetsToBytes rest).map
        (fun t => (a * 4 + b / 16) :: (b % 16 * 16 + c / 4) ::
                  (c % 4 * 64 + d) :: t)

-- Character loop of atob: every character must be in the standard
-- alphabet.
def charsToSextets : List Char → Option (List Nat)
  | [] => some []
  | c :: r =>
      match b64Index c, charsToSextets r with
      | some i, some t => some (i :: t)
      | _, _ => none

-- atob (forgiving-base64 decode).  Whitespace stripping is omitted: every
-- caller in the embedded code has already checked the B64URL character
-- class, so the input never contains whitespace.
def jsAtob (s : List Char) : Option Bytes :=
  if (stripPad s).length % 4 = 1 then none
  else
    match charsToSextets (stripPad s) with
    | some sx => sextetsToBytes sx
    | none => none

-- base64UrlToBytes (stasher_app.ts lines 246-268): input must be a
-- nonempty string over the base64url class, then decode via atob.
def base64UrlToBytes (s : JsString) : Option Bytes :=
  if b64urlTest s then jsAtob (fromBase64Url s) else none

-- b64urlLen (stasher_app.ts lines 191-195): decoded byte count computed
-- arithmetically from the encoded length.
def b64PadOf (n : Nat) : Nat := if n % 4 ≠ 0 then 4 - n % 4 else 0

def b64urlLenN (n : Nat) : Nat := (n + b64PadOf n) * 3 / 4 - b64PadOf n

def b64urlLen (s : JsString) : Nat := b64urlLenN s.length

-- assertB64UrlLen (stasher_app.ts lines 196-200) as a Boolean: true when
-- the check passes (no throw).
def assertB64UrlLen (s : JsString) (n : Nat) : Bool :=
  b64urlTest s && b64urlLen s == n

-- ## UUID v4 regex
--
-- UUID_REGEX (stasher_app.ts line 187):
-- /^[0-9a-f]{8}-[0-9a-f]{4}-4[0-9a-f]{3}-[89ab][0-9a-f]{3}-[0-9a-f]{12}$/i
-- The i flag makes the hex classes and [89ab] case-insensitive.

def isHexDigitCI (c : Char) : Bool :=
  if (48 ≤ c.toNat ∧ c.toNat ≤ 57) ∨ (97 ≤ c.toNat ∧ c.toNat ≤ 102) ∨
     (65 ≤ c.toNat ∧ c.toNat ≤ 70)
  then true else false

-- Character admitted at position i of the UUID pattern.
def uuidCharOk (i : Nat) (c : Char) : Bool :=
  if i = 8 ∨ i = 13 ∨ i = 18 ∨ i = 23 then c.toNat = 45
  else if i = 14 then c.toNat = 52
  else if i = 19 then
    c.toNat = 56 ∨ c.toNat = 57 ∨ c.toNat = 97 ∨ c.toNat = 98 ∨
    c.toNat = 65 ∨ c.toNat = 66
  else isHexDigitCI c

def uuidAux : Nat → JsString → Bool
  | i, [] => i == 36
  | i, c :: r => i < 36 && uuidCharOk i c && uuidAux (i + 1) r

-- UUID_REGEX.test.
def uuidRegexTest (s : JsString) : Bool := uuidAux 0 s

-- validateUUID (stasher_app.ts lines 402-404): no trimming.
def validateUUID (uuid : JsString) : Bool := uuidRegexTest uuid

-- tryValidateUUID (stasher_app.ts lines 407-412): trims first.
def tryValidateUUID (uuid : JsString) : Bool := validateUUID (jsTrim uuid)

-- ## Token format

structure StashTokenData where
  id : JsString
  keyBuffer : Bytes
deriving DecidableEq, Repr

inductive TokenErr where
  | keyLen          -- format: key is not 32 bytes
  | empty           -- parse: empty after trim
  | missingColon    -- parse: no colon separator
  | emptyId         -- parse: empty id portion
  | emptyKey        -- parse: empty key portion
  | malformedUuid   -- parse: id fails UUID_REGEX
  | keyEncodedLen   -- parse: assertB64UrlLen on the key fails
  | keyDecode       -- parse: base64UrlToBytes threw
  | keyBytesLen     -- parse: decoded key is not 32 bytes
deriving DecidableEq, Repr

-- formatStashToken (stasher_app.ts lines 281-287).
def formatStashToken (id : JsString) (keyBuffer : Bytes) :
    Except TokenErr JsString :=
  if keyBuffer.length ≠ KEY_LENGTH then .error .keyLen
  else .ok (id ++ ':' :: arrayBufferToBase64Url keyBuffer)

-- substring(0, indexOf colon): the prefix before the first colon.
def beforeColon (s : JsString) : JsString :=
  s.takeWhile (fun c => c ≠ ':')

-- substring(indexOf colon + 1): the suffix after the first colon.
def afterColon (s : JsString) : JsString :=
  (s.dropWhile (fun c => c ≠ ':')).tail

-- decodeStashToken (stasher_app.ts lines 289-337).  The source's local
-- bindings clean, id and keyBase64 are inlined: clean is
-- normalizeToken token, id is jsTrim (beforeColon clean), keyBase64 is
-- jsTrim (afterColon clean).
def decodeStashToken (token : JsString) : Except TokenErr StashTokenData :=
  if (normalizeToken token).isEmpty then .error .empty
  else if !(normalizeToken token).contains ':' then .error .missingColon
  else if (jsTrim (beforeColon (normalizeToken token))).isEmpty then
    .error .emptyId
  else if (jsTrim (afterColon (normalizeToken token))).isEmpty then
    .error .emptyKey
  else if !uuidRegexTest (jsTrim (beforeColon (normalizeToken token))) then
    .error .malformedUuid
  else if !assertB64UrlLen (jsTrim (afterColon (normalizeToken token)))
      KEY_LENGTH then
    .error .keyEncodedLen
  else
    match base64UrlToBytes (jsTrim (afterColon (normalizeToken token))) with
    | none => .error .keyDecode
    | some keyBytes =>
        if keyBytes.length ≠ KEY_LENGTH then .error .keyBytesLen
        else .ok ⟨jsTrim (beforeColon (normalizeToken token)), keyBytes⟩

-- parseUUID (stasher_app.ts lines 415-431): id extraction that ignores
-- the key portion, returning none instead of throwing; the source's
-- clean and id bindings are inlined as in decodeStashToken.
def parseUUID (token : JsString) : Option JsString :=
  if (normalizeToken token).contains ':' then
    if tryValidateUUID (jsTrim (beforeColon (normalizeToken token))) then
      some (jsTrim (beforeColon (normalizeToken token)))
    else none
  else if tryValidateUUID (normalizeToken token) then
    some (normalizeToken token)
  else none

-- ## JSON values and the payload format
--
-- parsePayload receives the result of JSON.parse; the parsed value is
-- modeled by this type (objects carry their fields in insertion order,
-- with the duplicate-free keys JSON.parse produces).

inductive Json where
  | str (s : JsString)
  | num (n : Int)
  | bool (b : Bool)
  | null
  | arr (items : List Json)
  | obj (fields : List (JsString × Json))

-- JS truthiness of a JSON.parse result.
def jsFalsy : Json → Bool
  | .null => true
  | .bool b => !b
  | .num n => n == 0
  | .str s => s.isEmpty
  | .arr _ => false
  | .obj _ => false

-- typeof x === 'object' for a JSON.parse result.
def jsTypeofObject : Json → Bool
  | .obj _ => true
  | .arr _ => true
  | .null => true
  | _ => false

def lookupField : List (JsString × Json) → JsString → Option Json
  | [], _ => none
  | (k, v) :: r, key => if k = key then some v else lookupField r key

-- Property access data[k] on a JSON.parse result (undefined is none).
def getField : Json → JsString → Option Json
  | .obj fs, k => lookupField fs k
  | _, _ => none

-- data[k] when it is a string (typeof data[k] === 'string').
def getStrField (data : Json) (k : JsString) : Option JsString :=
  match getField data k with
  | some (.str s) => some s
  | _ => none

def ivKey : JsString := "iv".toList
def tagKey : JsString := "tag".toList
def ctKey : JsString := "ciphertext".toList

inductive PayloadErr where
  | notObject       -- falsy or not typeof object
  | ivNotString
  | tagNotString
  | ctNotString
  | ivLen           -- assertB64UrlLen iv 12 failed
  | tagLen          -- assertB64UrlLen tag 16 failed
  | ctFormat        -- B64URL.test(ciphertext) failed
  | ctEmpty         -- computed ciphertext byte count is 0
  | ctTooLarge      -- computed ciphertext byte count exceeds the cap
deriving DecidableEq, Repr

-- parsePayload (stasher_app.ts lines 447-495) from the JSON.parse result
-- onward (the string-input and MalformedJSON steps are the JSON parser,
-- modeled as the given Json value).  On success the source returns data
-- itself, extra fields included.
def parsePayloadVal (data : Json) : Except PayloadErr Json :=
  if jsFalsy data || !jsTypeofObject data then .error .notObject
  else
    match getStrField data ivKey with
    | none => .error .ivNotString
    | some iv =>
      match getStrField data tagKey with
      | none => .error .tagNotString
      | some tag =>
        match getStrField data ctKey with
        | none => .error .ctNotString
        | some ct =>
          if !assertB64UrlLen iv IV_LENGTH then .error .ivLen
          else if !assertB64UrlLen tag TAG_LENGTH then .error .tagLen
          else if !b64urlTest ct then .error .ctFormat
          else if b64urlLen ct ≤ 0 then .error .ctEmpty
          else if b64urlLen ct > MAX_CIPHERTEXT_BYTES then .error .ctTooLarge
          else .ok data

-- ## Encryption result and payload serialization

structure EncryptionResult where
  keyBuffer : Bytes
  iv : Bytes
  ciphertext : Bytes
  tag : Bytes
deriving DecidableEq, Repr

structure PayloadData where
  iv : JsString
  tag : JsString
  ciphertext : JsString
deriving DecidableEq, Repr

-- createPayload (crypto-worker.ts lines 168-174 and stasher_app.ts lines
-- 376-382): encodes iv, tag and ciphertext; the key buffer is not read.
def createPayload (er : EncryptionResult) : PayloadData :=
  { iv := arrayBufferToBase64Url er.iv
    tag := arrayBufferToBase64Url er.tag
    ciphertext := arrayBufferToBase64Url er.ciphertext }

-- JSON string escaping of JSON.stringify.
def hexDigitChar (n : Nat) : Char :=
  if n < 10 then Char.ofNat (48 + n) else Char.ofNat (87 + n)

def jsonEscapeChar (c : Char) : List Char :=
  let n := c.toNat
  if n = 34 then [Char.ofNat 92, Char.ofNat 34]
  else if n = 92 then [Char.ofNat 92, Char.ofNat 92]
  else if n = 8 then [Char.ofNat 92, 'b']
  else if n = 9 then [Char.ofNat 92, 't']
  else if n = 10 then [Char.ofNat 92, 'n']
  else if n = 12 then [Char.ofNat 92, 'f']
  else if n = 13 then [Char.ofNat 92, 'r']
  else if n < 32 then
    [Char.ofNat 92, 'u', '0', '0', hexDigitChar (n / 16), hexDigitChar (n % 16)]
  else [c]

def jsonQuote (s : JsString) : List Char :=
  Char.ofNat 34 :: (s.foldr (fun c acc => jsonEscapeChar c ++ acc) []) ++
  [Char.ofNat 34]

def commaJoin : List (List Char) → List Char
  | [] => []
  | [x] => x
  | x :: y :: r => x ++ ',' :: commaJoin (y :: r)

mutual

def jsonStringify : Json → JsString
  | .str s => jsonQuote s
  | .num n => (toString n).toList
  | .bool b => if b then "true".toList else "false".toList
  | .null => "null".toList
  | .arr items =>
      Char.ofNat 91 :: commaJoin (jsonStringifyItems items) ++ [Char.ofNat 93]
  | .obj fields =>
      Char.ofNat 123 :: commaJoin (jsonStringifyFields fields) ++
      [Char.ofNat 125]

def jsonStringifyItems : List Json → List (List Char)
  | [] => []
  | x :: r => jsonStringify x :: jsonStringifyItems r

def jsonStringifyFields : List (JsString × Json) → List (List Char)
  | [] => []
  | (k, v) :: r =>
      (jsonQuote k ++ ':' :: jsonStringify v) :: jsonStringifyFields r

end

-- The object literal {iv, tag, ciphertext} built by createPayload, in
-- source order.
def payloadJson (p : PayloadData) : Json :=
  .obj [(ivKey, .str p.iv), (tagKey, .str p.tag), (ctKey, .str p.ciphertext)]

-- encodePayload (stasher_app.ts lines 443-445): JSON.stringify(payload).
def encodePayload (p : PayloadData) : JsString := jsonStringify (payloadJson p)

-- The HTTP request body performEnstash POSTs to the enstash endpoint
-- (crypto-worker.ts lines 331-346): JSON.stringify(createPayload(er)).
def enstashRequestBody (er : EncryptionResult) : JsString :=
  encodePayload (createPayload er)

-- ## Secret validation and the protocol preflights

-- validateSecretContent (stasher_app.ts lines 394-396):
-- secret.trim().length > 0.
def validateSecretContent (secret : JsString) : Bool :=
  decide (0 < jsStringLength (jsTrim secret))

-- validateSecretLength (stasher_app.ts lines 398-400): secret.length (JS
-- UTF-16 code units) at most MAX_SECRET_LENGTH (callers use the default).
def validateSecretLength (secret : JsString) : Bool :=
  decide (jsStringLength secret ≤ MAX_SECRET_LENGTH)

inductive EncryptErr where
  | emptySecret   -- falsy secret (the empty string)
  | secretTooLong -- secret.length > MAX_SECRET_LENGTH
deriving DecidableEq, Repr

-- The input-validation stage of encryptSecret (crypto-worker.ts lines
-- 78-85); none means validation passed and encryption proceeds.  The
-- falsy test rejects exactly the empty string (inputs here are strings).
def encryptSecretCheck (secret : JsString) : Option EncryptErr :=
  if secret.isEmpty then some .emptySecret
  else if MAX_SECRET_LENGTH < jsStringLength secret then some .secretTooLong
  else none

inductive EnstashErr where
  | validationEmpty   -- secret empty or whitespace only
  | validationTooLong -- secret too long
deriving DecidableEq, Repr

-- The validation prefix of performEnstash (crypto-worker.ts lines
-- 321-328); none means control reaches encryption and the network call.
def performEnstashCheck (secret : JsString) : Option EnstashErr :=
  if !validateSecretContent secret then some .validationEmpty
  else if !validateSecretLength secret then some .validationTooLong
  else none

inductive UnstashErr where
  | tokenErr (e : TokenErr) -- decodeStashToken threw on a colon input
  | invalidUuid             -- validateUUID rejected the extracted id
deriving DecidableEq, Repr

-- The id-extraction and validation prefix of performUnstash
-- (crypto-worker.ts lines 401-414); ok id means the DELETE for that id
-- is issued.
def performUnstashCheck (tokenOrId : JsString) : Except UnstashErr JsString :=
  if tokenOrId.contains ':' then
    match decodeStashToken tokenOrId with
    | .error e => .error (.tokenErr e)
    | .ok d => if !validateUUID d.id then .error .invalidUuid else .ok d.id
  else if !validateUUID tokenOrId then .error .invalidUuid
  else .ok tokenOrId

-- Error discriminator for Except.
def isErr {ε α : Type} : Except ε α → Bool
  | .error _ => true
  | .ok _ => false

-- ## Claim-side regular expressions and concrete inputs

-- Character class [0-9a-f-] of the token regex in the claim.
def lowerHexDash (c : Char) : Bool :=
  if (48 ≤ c.toNat ∧ c.toNat ≤ 57) ∨ (97 ≤ c.toNat ∧ c.toNat ≤ 102) ∨
     c.toNat = 45
  then true else false

-- The claim token shape /^[0-9a-f-]{36}:[A-Za-z0-9_-]{43}$/.
def claimTokenShape (s : JsString) : Bool :=
  let front := s.take 36
  let back := s.drop 36
  front.length == 36 && front.all lowerHexDash &&
  match back with
  | c :: rest => c.toNat == 58 && rest.length == 43 && rest.all b64urlCharOk
  | [] => false

-- Concrete inputs used by witnesses and counterexamples.
def sampleUuid : JsString := "a1b2c3d4-e5f6-4890-8abc-0123456789ab".toList

def sampleKey : Bytes := List.replicate 32 0

def seventeenAs : JsString := List.replicate 17 'A'

def c3CexPayload : Json :=
  .obj [(ivKey, .str seventeenAs),
        (tagKey, .str (List.replicate 22 'A')),
        (ctKey, .str ['A', 'A'])]

def c10Payload : Json :=
  .obj [(ivKey, .str (List.replicate 16 'A')),
        (tagKey, .str (List.replicate 22 'A')),
        (ctKey, .str ['A', 'A']),
        ("extra".toList, .str ['x'])]

def c8CexToken : JsString := sampleUuid ++ ':' :: ['!']

def whitespaceSecret : JsString := "   ".toList

def c2CexSecret : JsString := List.replicate 2049 (Char.ofNat 233)

-- Two encryption results that differ only in their key buffer.
def er1Sample : EncryptionResult :=
  ⟨List.replicate 32 1, List.replicate 12 0, [1, 2, 3], List.replicate 16 0⟩

def er2Sample : EncryptionResult :=
  ⟨List.replicate 32 9, List.replicate 12 0, [1, 2, 3], List.replicate 16 0⟩

-- ## Arithmetic of the encoded-length formula

-- The decoded byte count the sextet decoder produces for a given number
-- of data characters.
def decodedLenOfChars (n : Nat) : Nat :=
  n / 4 * 3 + (if n % 4 = 2 then 1 else if n % 4 = 3 then 2 else 0)

theorem b64urlLenN_closed (n : Nat) : b64urlLenN n = decodedLenOfChars n := by
  unfold b64urlLenN b64PadOf decodedLenOfChars
  split_ifs <;> omega

-- ## Sextet-level lemmas

theorem bytesToSextets_lt (l : Bytes) :
    (∀ b ∈ l, b < 256) → ∀ x ∈ bytesToSextets l, x < 64 := by
  induction l using bytesToSextets.induct with
  | case1 => simp [bytesToSextets]
  | case2 b1 =>
      intro h x hx
      have hb : b1 < 256 := h b1 (by simp)
      simp [bytesToSextets] at hx
      rcases hx with h1 | h1 <;> omega
  | case3 b1 b2 =>
      intro h x hx
      have hb1 : b1 < 256 := h b1 (by simp)
      have hb2 : b2 < 256 := h b2 (by simp)
      simp [bytesToSextets] at hx
      rcases hx with h1 | h1 | h1 <;> omega
  | case4 b1 b2 b3 rest ih =>
      intro h x hx
      have hb1 : b1 < 256 := h b1 (by simp)
      have hb2 : b2 < 256 := h b2 (by simp)
      have hb3 : b3 < 256 := h b3 (by simp)
      simp [bytesToSextets] at hx
      rcases hx with h1 | h1 | h1 | h1 | h1
      · omega
      · omega
      · omega
      · omega
      · exact ih (fun b hb => h b (by simp [hb])) x h1

theorem bytesToSextets_length (l : Bytes) :
    (bytesToSextets l).length =
      l.length / 3 * 4 + (if l.length % 3 = 0 then 0 else l.length % 3 + 1) := by
  induction l using bytesToSextets.induct with
  | case1 => simp [bytesToSextets]
  | case2 b1 => simp [bytesToSextets]
  | case3 b1 b2 => simp [bytesToSextets]
  | case4 b1 b2 b3 rest ih =>
      simp only [bytesToSextets, List.length_cons, ih]
      split_ifs at * <;> omega

theorem sextetsToBytes_bytesToSextets (l : Bytes) :
    (∀ b ∈ l, b < 256) → sextetsToBytes (bytesToSextets l) = some l := by
  induction l using bytesToSextets.induct with
  | case1 => intro _; rfl
  | case2 b1 =>
      intro h
      have hb : b1 < 256 := h b1 (by simp)
      simp [bytesToSextets, sextetsToBytes]
      omega
  | case3 b1 b2 =>
      intro h
      have hb1 : b1 < 256 := h b1 (by simp)
      have hb2 : b2 < 256 := h b2 (by simp)
      simp [bytesToSextets, sextetsToBytes]
      omega
  | case4 b1 b2 b3 rest ih =>
      intro h
      have hb1 : b1 < 256 := h b1 (by simp)
      have hb2 : b2 < 256 := h b2 (by simp)
      have hb3 : b3 < 256 := h b3 (by simp)
      have hrest := ih (fun b hb => h b (by simp [hb]))
      simp [bytesToSextets, sextetsToBytes, hrest]
      omega

theorem sextetsToBytes_total (sx : List Nat) :
    sx.length % 4 ≠ 1 →
      ∃ l, sextetsToBytes sx = some l ∧ l.length = decodedLenOfChars sx.length := by
  induction sx using sextetsToBytes.induct with
  | case1 => intro _; exact ⟨[], rfl, by simp [decodedLenOfChars]⟩
  | case2 a => intro h; simp at h
  | case3 a b => intro _; exact ⟨_, rfl, by simp [decodedLenOfChars]⟩
  | case4 a b c => intro _; exact ⟨_, rfl, by simp [decodedLenOfChars]⟩
  | case5 a b c d rest ih =>
      intro h
      have hr : rest.length % 4 ≠ 1 := by
        simp only [List.length_cons] at h; omega
      rcases ih hr with ⟨l, hl, hlen⟩
      refine ⟨(a * 4 + b / 16) :: (b % 16 * 16 + c / 4) :: (c % 4 * 64 + d) :: l,
        ?_, ?_⟩
      · simp [sextetsToBytes, hl]
      · simp only [List.length_cons, decodedLenOfChars] at *
        split_ifs at * <;> omega

-- ## Character-level facts about the alphabets

theorem b64Index_b64Char : ∀ i, i < 64 → b64Index (b64Char i) = some i := by
  decide

theorem b64Char_ne_pad : ∀ i, i < 64 → b64Char i ≠ '=' := by decide

theorem urlChar_ok : ∀ i, i < 64 →
    b64urlCharOk (toBase64UrlChar (b64Char i)) = true := by decide

theorem urlChar_ne_pad : ∀ i, i < 64 → toBase64UrlChar (b64Char i) ≠ '=' := by
  decide

theorem fromUrl_toUrl : ∀ i, i < 64 →
    fromBase64UrlChar (toBase64UrlChar (b64Char i)) = b64Char i := by decide

theorem b64urlCharOk_iff (c : Char) :
    b64urlCharOk c = true ↔
      ((65 ≤ c.toNat ∧ c.toNat ≤ 90) ∨ (97 ≤ c.toNat ∧ c.toNat ≤ 122) ∨
       (48 ≤ c.toNat ∧ c.toNat ≤ 57) ∨ c.toNat = 45 ∨ c.toNat = 95) := by
  unfold b64urlCharOk
  split_ifs with h
  · simp [h]
  · simp [h]

theorem isJsWhitespace_iff (c : Char) :
    isJsWhitespace c = true ↔
      (c.toNat = 9 ∨ c.toNat = 10 ∨ c.toNat = 11 ∨ c.toNat = 12 ∨
       c.toNat = 13 ∨ c.toNat = 32 ∨ c.toNat = 0xA0 ∨ c.toNat = 0x1680 ∨
       (0x2000 ≤ c.toNat ∧ c.toNat ≤ 0x200A) ∨ c.toNat = 0x2028 ∨
       c.toNat = 0x2029 ∨ c.toNat = 0x202F ∨ c.toNat = 0x205F ∨
       c.toNat = 0x3000 ∨ c.toNat = 0xFEFF) := by
  unfold isJsWhitespace
  split_ifs with h
  · simp [h]
  · simp [h]

theorem b64url_not_ws (c : Char) (h : b64urlCharOk c = true) :
    isJsWhitespace c = false := by
  rw [b64urlCharOk_iff] at h
  rcases Bool.eq_false_or_eq_true (isJsWhitespace c) with hw | hw
  · rw [isJsWhitespace_iff] at hw
    omega
  · exact hw

theorem fromUrl_index (c : Char) (h : b64urlCharOk c = true) :
    ∃ i, i < 64 ∧ b64Index (fromBase64UrlChar c) = some i := by
  rw [b64urlCharOk_iff] at h
  unfold fromBase64UrlChar
  split_ifs with h1 h2
  · exact ⟨62, by norm_num, by rfl⟩
  · exact ⟨63, by norm_num, by rfl⟩
  · unfold b64Index
    split_ifs with g1 g2 g3 g4 g5 <;> first
      | exact ⟨_, by omega, rfl⟩
      | omega

theorem fromUrl_ne_pad (c : Char) (h : b64urlCharOk c = true) :
    fromBase64UrlChar c ≠ '=' := by
  rw [b64urlCharOk_iff] at h
  unfold fromBase64UrlChar
  split_ifs with h1 h2 <;> intro he
  · exact absurd (congrArg Char.toNat he) (by decide)
  · exact absurd (congrArg Char.toNat he) (by decide)
  · have : c.toNat = 61 := congrArg Char.toNat he
    omega

-- ## List helpers for trimming and padding

theorem dropWhile_head_false {α : Type} (p : α → Bool) (s : List α)
    (h : ∀ c, s.head? = some c → p c = false) : s.dropWhile p = s := by
  cases s with
  | nil => rfl
  | cons a t =>
      have ha : p a = false := h a rfl
      simp [List.dropWhile, ha]

theorem dropWhile_replicate_append {α : Type} (p : α → Bool) (n : Nat)
    (a : α) (ys : List α) (h : p a = true) :
    List.dropWhile p (List.replicate n a ++ ys) = List.dropWhile p ys := by
  induction n with
  | zero => simp
  | succ k ih => simp [List.replicate_succ, List.dropWhile, h, ih]

theorem stripTrailingEq_append (xs : List Char) (k : Nat)
    (h : ∀ c ∈ xs, c ≠ '=') :
    stripTrailingEq (xs ++ List.replicate k '=') = xs := by
  unfold stripTrailingEq
  rw [List.reverse_append, List.reverse_replicate]
  rw [dropWhile_replicate_append _ k '=' xs.reverse (by decide)]
  rw [dropWhile_head_false _ xs.reverse ?_, List.reverse_reverse]
  intro c hc
  have hmem : c ∈ xs.reverse := by
    cases hrev : xs.reverse with
    | nil => rw [hrev] at hc; simp at hc
    | cons b t => rw [hrev] at hc; simp at hc; simp [hrev, hc]
  have : c ≠ '=' := h c (List.mem_reverse.mp hmem)
  simp [this]

-- ## stripPad on padded inputs

theorem stripPad_no_pad (bs : List Char) (h : ∀ c ∈ bs, c ≠ '=') :
    stripPad bs = bs := by
  unfold stripPad
  split_ifs with h0
  · rcases hrev : bs.reverse with _ | ⟨c1, t⟩
    · simp [hrev]
    · have hc1 : c1 ≠ '=' := h c1 (by rw [← List.mem_reverse, hrev]; simp)
      cases t with
      | nil => simp [hrev, hc1]
      | cons c2 r => simp [hrev, hc1]
  · rfl

theorem stripPad_two (bs : List Char) (h0 : (bs.length + 2) % 4 = 0) :
    stripPad (bs ++ ['=', '=']) = bs := by
  unfold stripPad
  have hlen : (bs ++ ['=', '=']).length % 4 = 0 := by
    simp only [List.length_append, List.length_cons, List.length_nil]
    omega
  rw [if_pos hlen]
  have hrev : (bs ++ ['=', '=']).reverse = '=' :: '=' :: bs.reverse := by simp
  simp [hrev]

theorem stripPad_one (bs : List Char) (hne : bs ≠ [])
    (h : ∀ c ∈ bs, c ≠ '=') (h0 : (bs.length + 1) % 4 = 0) :
    stripPad (bs ++ ['=']) = bs := by
  unfold stripPad
  have hlen : (bs ++ ['=']).length % 4 = 0 := by
    simp only [List.length_append, List.length_cons, List.length_nil]
    omega
  rw [if_pos hlen]
  rcases hrev : bs.reverse with _ | ⟨c2, r⟩
  · exact absurd (by simpa using congrArg List.reverse hrev) hne
  · have hfull : (bs ++ ['=']).reverse = '=' :: c2 :: r := by simp [hrev]
    have hc2 : c2 ≠ '=' := h c2 (by rw [← List.mem_reverse, hrev]; simp)
    simp only [hfull, hc2]
    simp [← hrev]

theorem stripPad_fromPad (bs : List Char) (h : ∀ c ∈ bs, c ≠ '=') :
    stripPad (bs ++ List.replicate ((4 - bs.length % 4) % 4) '=') =
      (if bs.length % 4 = 1 then bs ++ ['='] else bs) := by
  have h4 : bs.length % 4 = 0 ∨ bs.length % 4 = 1 ∨ bs.length % 4 = 2 ∨
      bs.length % 4 = 3 := by omega
  rcases h4 with h4 | h4 | h4 | h4
  · rw [h4]
    show stripPad (bs ++ List.replicate 0 '=') = _
    rw [if_neg (by omega)]
    simpa using stripPad_no_pad bs h
  · rw [h4]
    show stripPad (bs ++ List.replicate 3 '=') = _
    rw [if_pos rfl]
    have hsplit : bs ++ List.replicate 3 '=' = (bs ++ ['=']) ++ ['=', '='] := by
      simp
    rw [hsplit, stripPad_two (bs ++ ['=']) (by simp; omega)]
  · rw [h4]
    show stripPad (bs ++ List.replicate 2 '=') = _
    rw [if_neg (by omega)]
    exact stripPad_two bs (by omega)
  · rw [h4]
    show stripPad (bs ++ List.replicate 1 '=') = _
    rw [if_neg (by omega)]
    have hne : bs ≠ [] := by
      intro he; rw [he] at h4; simp at h4
    exact stripPad_one bs hne h (by omega)

-- ## Shape of the encoder output

theorem encode_eq_map (l : Bytes) (h : ∀ b ∈ l, b < 256) :
    arrayBufferToBase64Url l =
      (bytesToSextets l).map (fun i => toBase64UrlChar (b64Char i)) := by
  unfold arrayBufferToBase64Url jsBtoa
  rw [List.map_append, List.map_map, List.map_replicate]
  have hpadchar : toBase64UrlChar '=' = '=' := by decide
  rw [hpadchar]
  apply stripTrailingEq_append
  intro c hc
  rcases List.mem_map.mp hc with ⟨i, hi, hrfl⟩
  have hlt := bytesToSextets_lt l h i hi
  rw [← hrfl]
  exact urlChar_ne_pad i hlt

theorem encode_length (l : Bytes) (h : ∀ b ∈ l, b < 256) :
    (arrayBufferToBase64Url l).length = (bytesToSextets l).length := by
  rw [encode_eq_map l h, List.length_map]

theorem encode_all_ok (l : Bytes) (h : ∀ b ∈ l, b < 256) :
    ∀ c ∈ arrayBufferToBase64Url l, b64urlCharOk c = true := by
  intro c hc
  rw [encode_eq_map l h] at hc
  rcases List.mem_map.mp hc with ⟨i, hi, hrfl⟩
  rw [← hrfl]
  exact urlChar_ok i (bytesToSextets_lt l h i hi)

-- ## charsToSextets lemmas

theorem charsToSextets_map_b64Char (sx : List Nat) (h : ∀ i ∈ sx, i < 64) :
    charsToSextets (sx.map b64Char) = some sx := by
  induction sx with
  | nil => rfl
  | cons i t ih =>
      have hi := h i (by simp)
      have ht := ih (fun j hj => h j (by simp [hj]))
      simp [charsToSextets, b64Index_b64Char i hi, ht]

theorem charsToSextets_ok (s : List Char) (h : ∀ c ∈ s, b64urlCharOk c = true) :
    ∃ sx, charsToSextets (s.map fromBase64UrlChar) = some sx ∧
      sx.length = s.length := by
  induction s with
  | nil => exact ⟨[], rfl, rfl⟩
  | cons c t ih =>
      rcases fromUrl_index c (h c (by simp)) with ⟨i, hi, hidx⟩
      rcases ih (fun d hd => h d (by simp [hd])) with ⟨sx, hsx, hlen⟩
      exact ⟨i :: sx, by simp [charsToSextets, hidx, hsx], by simp [hlen]⟩

theorem charsToSextets_bad (s : List Char) (c : Char) (hc : c ∈ s)
    (hidx : b64Index c = none) : charsToSextets s = none := by
  induction s with
  | nil => simp at hc
  | cons a t ih =>
      rcases List.mem_cons.mp hc with rfl | hmem
      · simp [charsToSextets, hidx]
      · rw [charsToSextets, ih hmem]
        cases b64Index a <;> rfl

-- ## Behaviour of the full decoder

theorem jsAtob_fromUrl_mod1 (s : JsString)
    (h : ∀ c ∈ s, b64urlCharOk c = true) (h1 : s.length % 4 = 1) :
    jsAtob (fromBase64Url s) = none := by
  have hne : ∀ c ∈ s.map fromBase64UrlChar, c ≠ '=' := by
    intro c hc
    rcases List.mem_map.mp hc with ⟨d, hd, hrfl⟩
    rw [← hrfl]
    exact fromUrl_ne_pad d (h d hd)
  have hstrip := stripPad_fromPad (s.map fromBase64UrlChar) hne
  rw [List.length_map, if_pos h1] at hstrip
  unfold fromBase64Url jsAtob
  rw [hstrip]
  have hlen : (s.map fromBase64UrlChar ++ ['=']).length % 4 = 2 := by
    simp only [List.length_append, List.length_map, List.length_cons,
      List.length_nil]
    omega
  rw [if_neg (by omega)]
  rw [charsToSextets_bad (s.map fromBase64UrlChar ++ ['=']) '='
    (by simp) (by decide)]

theorem jsAtob_fromUrl_total (s : JsString)
    (h : ∀ c ∈ s, b64urlCharOk c = true) (h1 : s.length % 4 ≠ 1) :
    ∃ l, jsAtob (fromBase64Url s) = some l ∧
      l.length = decodedLenOfChars s.length := by
  have hne : ∀ c ∈ s.map fromBase64UrlChar, c ≠ '=' := by
    intro c hc
    rcases List.mem_map.mp hc with ⟨d, hd, hrfl⟩
    rw [← hrfl]
    exact fromUrl_ne_pad d (h d hd)
  have hstrip := stripPad_fromPad (s.map fromBase64UrlChar) hne
  rw [List.length_map, if_neg h1] at hstrip
  rcases charsToSextets_ok s h with ⟨sx, hsx, hsxlen⟩
  have hsxmod : sx.length % 4 ≠ 1 := by rw [hsxlen]; exact h1
  rcases sextetsToBytes_total sx hsxmod with ⟨l, hl, hllen⟩
  refine ⟨l, ?_, by rw [hllen, hsxlen]⟩
  unfold fromBase64Url jsAtob
  rw [hstrip, if_neg (by rw [List.length_map]; exact h1), hsx]
  exact hl

theorem base64UrlToBytes_total (s : JsString) (h : b64urlTest s = true)
    (h1 : s.length % 4 ≠ 1) :
    ∃ l, base64UrlToBytes s = some l ∧ l.length = b64urlLen s := by
  have hall : ∀ c ∈ s, b64urlCharOk c = true := by
    unfold b64urlTest at h
    rw [Bool.and_eq_true] at h
    exact List.all_eq_true.mp h.2
  rcases jsAtob_fromUrl_total s hall h1 with ⟨l, hl, hlen⟩
  refine ⟨l, ?_, ?_⟩
  · unfold base64UrlToBytes
    rw [if_pos h, hl]
  · rw [hlen]
    unfold b64urlLen
    rw [b64urlLenN_closed]

theorem base64UrlToBytes_mod1 (s : JsString) (h1 : s.length % 4 = 1) :
    base64UrlToBytes s = none := by
  unfold base64UrlToBytes
  split_ifs with h
  · have hall : ∀ c ∈ s, b64urlCharOk c = true := by
      unfold b64urlTest at h
      rw [Bool.and_eq_true] at h
      exact List.all_eq_true.mp h.2
    exact jsAtob_fromUrl_mod1 s hall h1
  · rfl

theorem base64UrlToBytes_inv (s : JsString) (l : Bytes)
    (h : base64UrlToBytes s = some l) :
    b64urlTest s = true ∧ l.length = b64urlLen s ∧ s.length % 4 ≠ 1 := by
  by_cases ht : b64urlTest s = true
  · by_cases hm : s.length % 4 = 1
    · rw [base64UrlToBytes_mod1 s hm] at h
      cases h
    · rcases base64UrlToBytes_total s ht hm with ⟨l2, hl2, hlen⟩
      rw [hl2] at h
      have : l2 = l := by injection h
      exact ⟨ht, by rw [← this]; exact hlen, hm⟩
  · unfold base64UrlToBytes at h
    rw [if_neg ht] at h
    cases h

-- ## Round trip: decode after encode

theorem base64UrlToBytes_encode (l : Bytes) (hne : l ≠ [])
    (h : ∀ b ∈ l, b < 256) :
    base64UrlToBytes (arrayBufferToBase64Url l) = some l := by
  have hlt : ∀ i ∈ bytesToSextets l, i < 64 := bytesToSextets_lt l h
  have henc := encode_eq_map l h
  have hsxlen := bytesToSextets_length l
  have hlpos : 0 < l.length := List.length_pos.mpr hne
  have hsxmod : (bytesToSextets l).length % 4 ≠ 1 := by
    rw [hsxlen]
    split_ifs with h3 <;> omega
  have hsxpos : 0 < (bytesToSextets l).length := by
    rw [hsxlen]
    split_ifs with h3 <;> omega
  have htest : b64urlTest (arrayBufferToBase64Url l) = true := by
    unfold b64urlTest
    rw [Bool.and_eq_true]
    constructor
    · rw [henc]
      rcases hsx : bytesToSextets l with _ | ⟨a, t⟩
      · rw [hsx] at hsxpos; simp at hsxpos
      · simp
    · exact List.all_eq_true.mpr (encode_all_ok l h)
  unfold base64UrlToBytes
  rw [if_pos htest]
  have hmapmap : (arrayBufferToBase64Url l).map fromBase64UrlChar =
      (bytesToSextets l).map b64Char := by
    rw [henc, List.map_map]
    apply List.map_congr_left
    intro i hi
    exact fromUrl_toUrl i (hlt i hi)
  have hnopad : ∀ c ∈ (bytesToSextets l).map b64Char, c ≠ '=' := by
    intro c hc
    rcases List.mem_map.mp hc with ⟨i, hi, hrfl⟩
    rw [← hrfl]
    exact b64Char_ne_pad i (hlt i hi)
  have hstrip := stripPad_fromPad ((bytesToSextets l).map b64Char) hnopad
  rw [List.length_map, if_neg hsxmod] at hstrip
  unfold fromBase64Url jsAtob
  rw [hmapmap, encode_length l h]
  rw [hstrip, if_neg (by rw [List.length_map]; exact hsxmod)]
  rw [charsToSextets_map_b64Char (bytesToSextets l) hlt]
  exact sextetsToBytes_bytesToSextets l h

-- ## Trim lemmas

theorem head_mem {α : Type} (s : List α) (c : α) (h : s.head? = some c) :
    c ∈ s := by
  cases s with
  | nil => cases h
  | cons a t =>
      have : a = c := by simpa using h
      rw [← this]
      exact List.mem_cons_self a t

theorem jsTrim_all_not_ws (s : JsString)
    (h : ∀ c ∈ s, isJsWhitespace c = false) : jsTrim s = s := by
  unfold jsTrim
  rw [dropWhile_head_false _ s (fun c hc => h c (head_mem s c hc))]
  rw [dropWhile_head_false _ s.reverse
    (fun c hc => h c (List.mem_reverse.mp (head_mem s.reverse c hc)))]
  exact List.reverse_reverse s

-- ## UUID regex lemmas

theorem isHexDigitCI_iff (c : Char) :
    isHexDigitCI c = true ↔
      ((48 ≤ c.toNat ∧ c.toNat ≤ 57) ∨ (97 ≤ c.toNat ∧ c.toNat ≤ 102) ∨
       (65 ≤ c.toNat ∧ c.toNat ≤ 70)) := by
  unfold isHexDigitCI
  split_ifs with h
  · simp [h]
  · simp [h]

theorem uuidCharOk_props (j : Nat) (c : Char) (h : uuidCharOk j c = true) :
    isJsWhitespace c = false ∧ c ≠ ':' := by
  unfold uuidCharOk at h
  split_ifs at h with h1 h2 h3
  · rw [decide_eq_true_eq] at h
    refine ⟨?_, ?_⟩
    · rcases Bool.eq_false_or_eq_true (isJsWhitespace c) with hw | hw
      · rw [isJsWhitespace_iff] at hw; omega
      · exact hw
    · intro he; subst he; exact absurd h (by decide)
  · rw [decide_eq_true_eq] at h
    refine ⟨?_, ?_⟩
    · rcases Bool.eq_false_or_eq_true (isJsWhitespace c) with hw | hw
      · rw [isJsWhitespace_iff] at hw; omega
      · exact hw
    · intro he; subst he; exact absurd h (by decide)
  · rw [decide_eq_true_eq] at h
    refine ⟨?_, ?_⟩
    · rcases Bool.eq_false_or_eq_true (isJsWhitespace c) with hw | hw
      · rw [isJsWhitespace_iff] at hw; omega
      · exact hw
    · intro he; subst he; exact absurd h (by decide)
  · rw [isHexDigitCI_iff] at h
    refine ⟨?_, ?_⟩
    · rcases Bool.eq_false_or_eq_true (isJsWhitespace c) with hw | hw
      · rw [isJsWhitespace_iff] at hw; omega
      · exact hw
    · intro he; subst he; exact absurd h (by decide)

theorem uuidAux_mem (s : JsString) : ∀ i : Nat, uuidAux i s = true →
    ∀ c ∈ s, ∃ j, uuidCharOk j c = true := by
  induction s with
  | nil => intro i _ c hc; simp at hc
  | cons a t ih =>
      intro i h c hc
      unfold uuidAux at h
      rw [Bool.and_eq_true, Bool.and_eq_true] at h
      rcases List.mem_cons.mp hc with rfl | hmem
      · exact ⟨i, h.1.2⟩
      · exact ih (i + 1) h.2 c hmem

theorem uuidAux_len (s : JsString) : ∀ i : Nat, uuidAux i s = true →
    i + s.length = 36 := by
  induction s with
  | nil =>
      intro i h
      unfold uuidAux at h
      simp at h ⊢
      omega
  | cons a t ih =>
      intro i h
      unfold uuidAux at h
      rw [Bool.and_eq_true, Bool.and_eq_true] at h
      have := ih (i + 1) h.2
      simp only [List.length_cons]
      omega

theorem uuid_chars (s : JsString) (h : uuidRegexTest s = true) :
    ∀ c ∈ s, isJsWhitespace c = false ∧ c ≠ ':' := by
  intro c hc
  rcases uuidAux_mem s 0 h c hc with ⟨j, hj⟩
  exact uuidCharOk_props j c hj

theorem uuid_len (s : JsString) (h : uuidRegexTest s = true) :
    s.length = 36 := by
  have := uuidAux_len s 0 h
  omega

theorem uuid_no_colon (s : JsString) (h : uuidRegexTest s = true) :
    ':' ∉ s := fun hc => (uuid_chars s h ':' hc).2 rfl

theorem uuid_trim (s : JsString) (h : uuidRegexTest s = true) :
    jsTrim s = s :=
  jsTrim_all_not_ws s (fun c hc => (uuid_chars s h c hc).1)

-- ## Splitting at the first colon

theorem beforeColon_app (pre post : JsString) (h : ':' ∉ pre) :
    beforeColon (pre ++ ':' :: post) = pre := by
  induction pre with
  | nil =>
      unfold beforeColon
      rw [List.nil_append, List.takeWhile_cons_of_neg (by simp)]
  | cons a t ih =>
      have ha : a ≠ ':' := fun he => h (he ▸ List.mem_cons_self a t)
      have ht : ':' ∉ t := fun hm => h (List.mem_cons_of_mem a hm)
      unfold beforeColon at ih ⊢
      rw [List.cons_append, List.takeWhile_cons_of_pos (by simp [ha]), ih ht]

theorem afterColon_app (pre post : JsString) (h : ':' ∉ pre) :
    afterColon (pre ++ ':' :: post) = post := by
  induction pre with
  | nil =>
      unfold afterColon
      rw [List.nil_append, List.dropWhile_cons_of_neg (by simp)]
      rfl
  | cons a t ih =>
      have ha : a ≠ ':' := fun he => h (he ▸ List.mem_cons_self a t)
      have ht : ':' ∉ t := fun hm => h (List.mem_cons_of_mem a hm)
      unfold afterColon at ih ⊢
      rw [List.cons_append, List.dropWhile_cons_of_pos (by simp [ha])]
      exact ih ht

theorem split_colon (s : JsString) (h : ':' ∈ s) :
    s = beforeColon s ++ ':' :: afterColon s ∧ ':' ∉ beforeColon s := by
  induction s with
  | nil => simp at h
  | cons a t ih =>
      by_cases ha : a = ':'
      · subst ha
        refine ⟨?_, ?_⟩
        · unfold beforeColon afterColon
          rw [List.takeWhile_cons_of_neg (by simp),
            List.dropWhile_cons_of_neg (by simp)]
          simp
        · unfold beforeColon
          rw [List.takeWhile_cons_of_neg (by simp)]
          simp
      · have hmem : ':' ∈ t := by
          rcases List.mem_cons.mp h with he | hm
          · exact absurd he.symm ha
          · exact hm
        rcases ih hmem with ⟨h1, h2⟩
        refine ⟨?_, ?_⟩
        · unfold beforeColon afterColon at h1 ⊢
          rw [List.takeWhile_cons_of_pos (by simp [ha]),
            List.dropWhile_cons_of_pos (by simp [ha]), List.cons_append]
          exact congrArg (a :: ·) h1
        · unfold beforeColon at h2 ⊢
          rw [List.takeWhile_cons_of_pos (by simp [ha])]
          intro hc
          rcases List.mem_cons.mp hc with he | hm
          · exact ha he.symm
          · exact h2 hm

-- ## Boolean views of the validators

theorem b64urlTest_iff (s : JsString) :
    b64urlTest s = true ↔ s ≠ [] ∧ ∀ c ∈ s, b64urlCharOk c = true := by
  unfold b64urlTest
  rw [Bool.and_eq_true, List.all_eq_true]
  constructor
  · intro ⟨h1, h2⟩
    refine ⟨?_, h2⟩
    intro he
    rw [he] at h1
    simp at h1
  · intro ⟨h1, h2⟩
    refine ⟨?_, h2⟩
    cases s with
    | nil => exact absurd rfl h1
    | cons a t => rfl

theorem assertB64UrlLen_iff (s : JsString) (n : Nat) :
    assertB64UrlLen s n = true ↔ b64urlTest s = true ∧ b64urlLen s = n := by
  unfold assertB64UrlLen
  rw [Bool.and_eq_true, beq_iff_eq]

-- ## Inversion of decodeStashToken

theorem decode_ok_facts (token : JsString) (d : StashTokenData)
    (h : decodeStashToken token = .ok d) :
    ':' ∈ jsTrim token ∧
    d.id = jsTrim (beforeColon (jsTrim token)) ∧
    uuidRegexTest d.id = true ∧
    assertB64UrlLen (jsTrim (afterColon (jsTrim token))) KEY_LENGTH = true ∧
    base64UrlToBytes (jsTrim (afterColon (jsTrim token))) = some d.keyBuffer ∧
    d.keyBuffer.length = KEY_LENGTH := by
  unfold decodeStashToken normalizeToken at h
  split_ifs at h with h1 h2 h3 h4 h5 h6
  rcases hdec : base64UrlToBytes (jsTrim (afterColon (jsTrim token)))
    with _ | keyBytes
  · rw [hdec] at h
    cases h
  · rw [hdec] at h
    dsimp only at h
    split_ifs at h with h7
    injection h with h
    have hc2 : List.contains (jsTrim token) ':' = true := by
      revert h2
      cases List.contains (jsTrim token) ':' <;> simp
    have hcolon : ':' ∈ jsTrim token := List.elem_iff.mp hc2
    have huuid : uuidRegexTest (jsTrim (beforeColon (jsTrim token))) = true := by
      revert h5
      cases uuidRegexTest (jsTrim (beforeColon (jsTrim token))) <;> simp
    have hassert : assertB64UrlLen (jsTrim (afterColon (jsTrim token)))
        KEY_LENGTH = true := by
      revert h6
      cases assertB64UrlLen (jsTrim (afterColon (jsTrim token)))
        KEY_LENGTH <;> simp
    rw [← h]
    simp only [not_not] at h7
    exact ⟨hcolon, rfl, huuid, hassert, rfl, h7⟩

theorem decode_ok_intro (token : JsString)
    (hcolon : ':' ∈ jsTrim token)
    (hid : (jsTrim (beforeColon (jsTrim token))).isEmpty = false)
    (hkey : (jsTrim (afterColon (jsTrim token))).isEmpty = false)
    (huuid : uuidRegexTest (jsTrim (beforeColon (jsTrim token))) = true)
    (hassert : assertB64UrlLen (jsTrim (afterColon (jsTrim token)))
      KEY_LENGTH = true)
    (keyBytes : Bytes)
    (hdec : base64UrlToBytes (jsTrim (afterColon (jsTrim token))) =
      some keyBytes)
    (hlen : keyBytes.length = KEY_LENGTH) :
    decodeStashToken token =
      .ok ⟨jsTrim (beforeColon (jsTrim token)), keyBytes⟩ := by
  have hne : (jsTrim token).isEmpty = false := by
    cases he : jsTrim token with
    | nil => rw [he] at hcolon; simp at hcolon
    | cons a t => rfl
  have hcont : (jsTrim token).contains ':' = true := by
    rw [List.elem_iff]
    exact hcolon
  unfold decodeStashToken normalizeToken
  rw [hne, hcont, hid, hkey, huuid, hassert, hdec]
  simp [hlen]

-- ## Claim theorems

/-- C4: Token Format parse (decodeStashToken) fails on an empty or
whitespace-only string, on a string with no colon, on an empty id portion,
on an empty key portion, on an id portion not matching the UUID-v4
pattern, and on a key portion that is not valid base64url text decoding to
exactly 32 bytes; on success it splits the trimmed input at the first
colon (each side further trimmed, as the source does). -/
theorem C4_decode_stash_token (token : JsString) :
    (jsTrim token = [] → isErr (decodeStashToken token) = true) ∧
    (':' ∉ jsTrim token → isErr (decodeStashToken token) = true) ∧
    (jsTrim (beforeColon (jsTrim token)) = [] →
      isErr (decodeStashToken token) = true) ∧
    (jsTrim (afterColon (jsTrim token)) = [] →
      isErr (decodeStashToken token) = true) ∧
    (uuidRegexTest (jsTrim (beforeColon (jsTrim token))) = false →
      isErr (decodeStashToken token) = true) ∧
    ((∀ l : Bytes,
        base64UrlToBytes (jsTrim (afterColon (jsTrim token))) = some l →
        l.length ≠ KEY_LENGTH) → isErr (decodeStashToken token) = true) ∧
    (∀ d, decodeStashToken token = .ok d →
      d.id = jsTrim (beforeColon (jsTrim token)) ∧
      uuidRegexTest d.id = true ∧
      base64UrlToBytes (jsTrim (afterColon (jsTrim token))) =
        some d.keyBuffer ∧
      d.keyBuffer.length = KEY_LENGTH ∧
      jsTrim token =
        beforeColon (jsTrim token) ++ ':' :: afterColon (jsTrim token) ∧
      ':' ∉ beforeColon (jsTrim token)) := by
  rcases hd : decodeStashToken token with e | d
  · exact ⟨fun _ => rfl, fun _ => rfl, fun _ => rfl, fun _ => rfl,
      fun _ => rfl, fun _ => rfl, fun d h => by cases h⟩
  · rcases decode_ok_facts token d hd with
      ⟨hcolon, hid_eq, huuid, hassert, hdecode, hlen⟩
    refine ⟨?_, ?_, ?_, ?_, ?_, ?_, ?_⟩
    · intro h0
      rw [h0] at hcolon
      cases hcolon
    · intro h0
      exact absurd hcolon h0
    · intro h0
      have h36 := uuid_len _ (hid_eq ▸ huuid)
      rw [h0] at h36
      simp at h36
    · intro h0
      rw [h0] at hdecode
      have hnone : base64UrlToBytes ([] : JsString) = none := rfl
      rw [hnone] at hdecode
      cases hdecode
    · intro h0
      rw [hid_eq] at huuid
      rw [h0] at huuid
      cases huuid
    · intro h0
      exact absurd hlen (h0 d.keyBuffer hdecode)
    · intro d2 h2
      have hdd : d = d2 := by injection h2
      rcases split_colon (jsTrim token) hcolon with ⟨hsplit, hnc⟩
      exact hdd ▸ ⟨hid_eq, huuid, hdecode, hlen, hsplit, hnc⟩

/-- Witness for C4 at the concrete input abc (no colon). -/
theorem C4_decode_stash_token_witness :
    isErr (decodeStashToken ("abc".toList)) = true :=
  (C4_decode_stash_token ("abc".toList)).2.1 (by decide)

/-- C5: the token round-trip law: for every id matching the UUID-v4
pattern and every 32-byte key, decodeStashToken (formatStashToken id key)
returns the same id and the same key bytes. -/
theorem C5_token_roundtrip (id : JsString) (key : Bytes)
    (h1 : uuidRegexTest id = true) (h2 : key.length = KEY_LENGTH)
    (h3 : ∀ b ∈ key, b < 256) :
    formatStashToken id key = .ok (id ++ ':' :: arrayBufferToBase64Url key) ∧
    decodeStashToken (id ++ ':' :: arrayBufferToBase64Url key) =
      .ok ⟨id, key⟩ := by
  have hkeyne : key ≠ [] := by
    intro he
    rw [he] at h2
    cases h2
  have hencLen : (arrayBufferToBase64Url key).length = 43 := by
    rw [encode_length key h3, bytesToSextets_length key, h2]
    decide
  have hencchars := encode_all_ok key h3
  have hdec : base64UrlToBytes (arrayBufferToBase64Url key) = some key :=
    base64UrlToBytes_encode key hkeyne h3
  have hfmt : formatStashToken id key =
      .ok (id ++ ':' :: arrayBufferToBase64Url key) := by
    unfold formatStashToken
    rw [if_neg (by simp [h2])]
  have hidchars := uuid_chars id h1
  have htrim : jsTrim (id ++ ':' :: arrayBufferToBase64Url key) =
      id ++ ':' :: arrayBufferToBase64Url key := by
    apply jsTrim_all_not_ws
    intro c hc
    rcases List.mem_append.mp hc with hm | hm
    · exact (hidchars c hm).1
    · rcases List.mem_cons.mp hm with rfl | hm2
      · decide
      · exact b64url_not_ws c (hencchars c hm2)
  have hnocolon : ':' ∉ id := uuid_no_colon id h1
  have hbefore : beforeColon (id ++ ':' :: arrayBufferToBase64Url key) = id :=
    beforeColon_app id _ hnocolon
  have hafter : afterColon (id ++ ':' :: arrayBufferToBase64Url key) =
      arrayBufferToBase64Url key :=
    afterColon_app id _ hnocolon
  have htrimid : jsTrim id = id := uuid_trim id h1
  have htrimenc : jsTrim (arrayBufferToBase64Url key) =
      arrayBufferToBase64Url key :=
    jsTrim_all_not_ws _ (fun c hc => b64url_not_ws c (hencchars c hc))
  have hcolon : ':' ∈ jsTrim (id ++ ':' :: arrayBufferToBase64Url key) := by
    rw [htrim]
    exact List.mem_append.mpr (Or.inr (List.mem_cons_self _ _))
  have hidne : (jsTrim (beforeColon
      (jsTrim (id ++ ':' :: arrayBufferToBase64Url key)))).isEmpty = false := by
    rw [htrim, hbefore, htrimid]
    have h36 := uuid_len id h1
    cases id with
    | nil => cases h36
    | cons a t => rfl
  have hkeyne2 : (jsTrim (afterColon
      (jsTrim (id ++ ':' :: arrayBufferToBase64Url key)))).isEmpty = false := by
    rw [htrim, hafter, htrimenc]
    cases henc : arrayBufferToBase64Url key with
    | nil => rw [henc] at hencLen; cases hencLen
    | cons a t => rfl
  have huuid2 : uuidRegexTest (jsTrim (beforeColon
      (jsTrim (id ++ ':' :: arrayBufferToBase64Url key)))) = true := by
    rw [htrim, hbefore, htrimid]
    exact h1
  have hassert : assertB64UrlLen (jsTrim (afterColon
      (jsTrim (id ++ ':' :: arrayBufferToBase64Url key)))) KEY_LENGTH =
        true := by
    rw [htrim, hafter, htrimenc, assertB64UrlLen_iff]
    refine ⟨?_, ?_⟩
    · rw [b64urlTest_iff]
      refine ⟨?_, hencchars⟩
      intro he
      rw [he] at hencLen
      cases hencLen
    · unfold b64urlLen
      rw [hencLen]
      decide
  have hdec2 : base64UrlToBytes (jsTrim (afterColon
      (jsTrim (id ++ ':' :: arrayBufferToBase64Url key)))) = some key := by
    rw [htrim, hafter, htrimenc]
    exact hdec
  have hmain := decode_ok_intro (id ++ ':' :: arrayBufferToBase64Url key)
    hcolon hidne hkeyne2 huuid2 hassert key hdec2 h2
  rw [htrim, hbefore, htrimid] at hmain
  exact ⟨hfmt, hmain⟩

/-- Witness for C5 at a concrete UUID and the all-zero 32-byte key. -/
theorem C5_token_roundtrip_witness :
    formatStashToken sampleUuid sampleKey =
      .ok (sampleUuid ++ ':' :: arrayBufferToBase64Url sampleKey) ∧
    decodeStashToken (sampleUuid ++ ':' :: arrayBufferToBase64Url sampleKey) =
      .ok ⟨sampleUuid, sampleKey⟩ :=
  C5_token_roundtrip sampleUuid sampleKey (by decide) (by decide) (by decide)

/-- C1: for a server-assigned lowercase UUID-v4 id (36 characters over
[0-9a-f-]) and any 32-byte key, the token built by formatStashToken is
id, a colon, and the base64url key encoding, which is exactly 43
characters over [A-Za-z0-9_-]; the whole token matches the claim regex
[0-9a-f-]{36} colon [A-Za-z0-9_-]{43}. -/
theorem C1_token_shape (id : JsString) (key : Bytes)
    (h1 : id.length = 36) (h2 : ∀ c ∈ id, lowerHexDash c = true)
    (h3 : key.length = KEY_LENGTH) (h4 : ∀ b ∈ key, b < 256) :
    formatStashToken id key = .ok (id ++ ':' :: arrayBufferToBase64Url key) ∧
    (arrayBufferToBase64Url key).length = 43 ∧
    (∀ c ∈ arrayBufferToBase64Url key, b64urlCharOk c = true) ∧
    claimTokenShape (id ++ ':' :: arrayBufferToBase64Url key) = true := by
  have hencLen : (arrayBufferToBase64Url key).length = 43 := by
    rw [encode_length key h4, bytesToSextets_length key, h3]
    decide
  have hencchars := encode_all_ok key h4
  refine ⟨?_, hencLen, hencchars, ?_⟩
  · unfold formatStashToken
    rw [if_neg (by simp [h3])]
  · unfold claimTokenShape
    rw [List.take_left' h1, List.drop_left' h1]
    rw [Bool.and_eq_true, Bool.and_eq_true]
    refine ⟨⟨?_, ?_⟩, ?_⟩
    · rw [beq_iff_eq]
      exact h1
    · exact List.all_eq_true.mpr h2
    · rw [Bool.and_eq_true, Bool.and_eq_true]
      refine ⟨⟨by decide, ?_⟩, ?_⟩
      · rw [beq_iff_eq]
        exact hencLen
      · exact List.all_eq_true.mpr hencchars

/-- Witness for C1 at a concrete UUID and the all-zero 32-byte key. -/
theorem C1_token_shape_witness :
    claimTokenShape (sampleUuid ++ ':' :: arrayBufferToBase64Url sampleKey) =
      true :=
  (C1_token_shape sampleUuid sampleKey (by decide) (by decide) (by decide)
    (by decide)).2.2.2

-- ## Reduction of parsePayloadVal on objects with three string fields

theorem parsePayloadVal_obj (fs : List (JsString × Json))
    (iv tag ct : JsString)
    (hiv : getStrField (Json.obj fs) ivKey = some iv)
    (htag : getStrField (Json.obj fs) tagKey = some tag)
    (hct : getStrField (Json.obj fs) ctKey = some ct) :
    parsePayloadVal (Json.obj fs) =
      (if assertB64UrlLen iv IV_LENGTH = false then .error .ivLen
       else if assertB64UrlLen tag TAG_LENGTH = false then .error .tagLen
       else if b64urlTest ct = false then .error .ctFormat
       else if b64urlLen ct ≤ 0 then .error .ctEmpty
       else if b64urlLen ct > MAX_CIPHERTEXT_BYTES then .error .ctTooLarge
       else .ok (Json.obj fs)) := by
  unfold parsePayloadVal
  rw [show (jsFalsy (Json.obj fs) || !jsTypeofObject (Json.obj fs)) = false
    from rfl]
  rw [if_neg Bool.false_ne_true, hiv]
  dsimp only
  rw [htag]
  dsimp only
  rw [hct]
  simp only [Bool.not_eq_true']

/-- C6 (amended): the algebraic pre-decode check assertB64UrlLen is the
upper adjoint of decoding: whenever base64UrlToBytes decodes to exactly n
bytes the check passes, and whenever the check passes on a string whose
length is not congruent to 1 modulo 4 the decode succeeds with exactly n
bytes; strings of length congruent to 1 modulo 4 can pass the check while
failing to decode. -/
theorem C6_assert_vs_decode (s : JsString) (n : Nat) :
    ((∃ l : Bytes, base64UrlToBytes s = some l ∧ l.length = n) →
      assertB64UrlLen s n = true) ∧
    (assertB64UrlLen s n = true → s.length % 4 ≠ 1 →
      ∃ l : Bytes, base64UrlToBytes s = some l ∧ l.length = n) := by
  constructor
  · rintro ⟨l, hl, hlen⟩
    rcases base64UrlToBytes_inv s l hl with ⟨ht, hlen2, _⟩
    rw [assertB64UrlLen_iff]
    refine ⟨ht, ?_⟩
    rw [← hlen2]
    exact hlen
  · intro ha hm
    rw [assertB64UrlLen_iff] at ha
    rcases base64UrlToBytes_total s ha.1 hm with ⟨l, hl, hlen⟩
    refine ⟨l, hl, ?_⟩
    rw [hlen, ha.2]

/-- C6 counterexample: seventeen A characters (length 17, congruent to 1
mod 4) pass the algebraic 12-byte check but base64UrlToBytes fails on
them, so the check is not equivalent to successful decoding. -/
theorem C6_counterexample :
    assertB64UrlLen seventeenAs IV_LENGTH = true ∧
    base64UrlToBytes seventeenAs = none := by
  constructor
  · decide
  · decide

/-- Witness for C6 at the two-character string AA and n equal 1. -/
theorem C6_assert_vs_decode_witness :
    assertB64UrlLen ['A', 'A'] 1 = true :=
  (C6_assert_vs_decode ['A', 'A'] 1).1 ⟨[0], by decide, rfl⟩

/-- C3 (amended): Payload Format parse rejects every payload whose iv or
tag field decodes successfully to the wrong byte count and every payload
whose ciphertext decodes to more than 16384 bytes, and accepts every
payload whose three string fields genuinely decode to 12, 16 and 1..16384
bytes; but a field that fails to decode (encoded length congruent to 1
mod 4) whose algebraic byte count matches is accepted, because parse never
invokes the decoder. -/
theorem C3_payload_validation (fs : List (JsString × Json))
    (iv tag ct : JsString)
    (hiv : getStrField (Json.obj fs) ivKey = some iv)
    (htag : getStrField (Json.obj fs) tagKey = some tag)
    (hct : getStrField (Json.obj fs) ctKey = some ct) :
    ((∃ l : Bytes, base64UrlToBytes iv = some l ∧ l.length ≠ IV_LENGTH) →
      isErr (parsePayloadVal (Json.obj fs)) = true) ∧
    ((∃ l : Bytes, base64UrlToBytes tag = some l ∧ l.length ≠ TAG_LENGTH) →
      isErr (parsePayloadVal (Json.obj fs)) = true) ∧
    ((∃ l : Bytes, base64UrlToBytes ct = some l ∧
        MAX_CIPHERTEXT_BYTES < l.length) →
      isErr (parsePayloadVal (Json.obj fs)) = true) ∧
    ((∃ l : Bytes, base64UrlToBytes iv = some l ∧ l.length = IV_LENGTH) →
      (∃ l : Bytes, base64UrlToBytes tag = some l ∧ l.length = TAG_LENGTH) →
      (∃ l : Bytes, base64UrlToBytes ct = some l ∧ 1 ≤ l.length ∧
        l.length ≤ MAX_CIPHERTEXT_BYTES) →
      parsePayloadVal (Json.obj fs) = .ok (Json.obj fs)) := by
  rw [parsePayloadVal_obj fs iv tag ct hiv htag hct]
  refine ⟨?_, ?_, ?_, ?_⟩
  · rintro ⟨l, hl, hlen⟩
    rcases base64UrlToBytes_inv iv l hl with ⟨_, hlen2, _⟩
    have ha : assertB64UrlLen iv IV_LENGTH = false := by
      rcases Bool.eq_false_or_eq_true (assertB64UrlLen iv IV_LENGTH)
        with hf | ht2
      · rw [assertB64UrlLen_iff] at hf
        exact absurd (by rw [hlen2, hf.2]) hlen
      · exact ht2
    rw [ha, if_pos rfl]
    rfl
  · rintro ⟨l, hl, hlen⟩
    rcases base64UrlToBytes_inv tag l hl with ⟨_, hlen2, _⟩
    rcases Bool.eq_false_or_eq_true (assertB64UrlLen iv IV_LENGTH)
      with ht2 | hf
    · rw [ht2, if_neg (by decide)]
      have ha : assertB64UrlLen tag TAG_LENGTH = false := by
        rcases Bool.eq_false_or_eq_true (assertB64UrlLen tag TAG_LENGTH)
          with hg2 | hg
        · rw [assertB64UrlLen_iff] at hg2
          exact absurd (by rw [hlen2, hg2.2]) hlen
        · exact hg
      rw [ha, if_pos rfl]
      rfl
    · rw [hf, if_pos rfl]
      rfl
  · rintro ⟨l, hl, hlen⟩
    rcases base64UrlToBytes_inv ct l hl with ⟨htct, hlen2, _⟩
    rcases Bool.eq_false_or_eq_true (assertB64UrlLen iv IV_LENGTH)
      with ht2 | hf
    · rw [ht2, if_neg (by decide)]
      rcases Bool.eq_false_or_eq_true (assertB64UrlLen tag TAG_LENGTH)
        with hg2 | hg
      · rw [hg2, if_neg (by decide), htct, if_neg (by decide)]
        rw [if_neg (by omega), if_pos (by omega)]
        rfl
      · rw [hg, if_pos rfl]
        rfl
    · rw [hf, if_pos rfl]
      rfl
  · rintro ⟨li, hli, hleni⟩ ⟨lt, hlt, hlent⟩ ⟨lc, hlc, hlenc1, hlenc2⟩
    rcases base64UrlToBytes_inv iv li hli with ⟨hti, hlen2i, _⟩
    rcases base64UrlToBytes_inv tag lt hlt with ⟨htt, hlen2t, _⟩
    rcases base64UrlToBytes_inv ct lc hlc with ⟨htc, hlen2c, _⟩
    have hai : assertB64UrlLen iv IV_LENGTH = true := by
      rw [assertB64UrlLen_iff]
      exact ⟨hti, by rw [← hlen2i]; exact hleni⟩
    have hat : assertB64UrlLen tag TAG_LENGTH = true := by
      rw [assertB64UrlLen_iff]
      exact ⟨htt, by rw [← hlen2t]; exact hlent⟩
    rw [hai, if_neg (by decide), hat, if_neg (by decide), htc,
      if_neg (by decide), if_neg (by omega), if_neg (by omega)]

/-- C3 counterexample: a payload whose iv field is seventeen A characters
is accepted by parse although that field cannot be decoded at all (so it
certainly does not decode to exactly 12 bytes). -/
theorem C3_counterexample :
    parsePayloadVal c3CexPayload = .ok c3CexPayload ∧
    base64UrlToBytes seventeenAs = none := by
  constructor
  · rfl
  · rfl

/-- Witness for C3 at a concrete in-bounds payload. -/
theorem C3_payload_validation_witness :
    parsePayloadVal (Json.obj
      [(ivKey, .str (List.replicate 16 'A')),
       (tagKey, .str (List.replicate 22 'A')),
       (ctKey, .str ['A', 'A'])]) =
      .ok (Json.obj
        [(ivKey, .str (List.replicate 16 'A')),
         (tagKey, .str (List.replicate 22 'A')),
         (ctKey, .str ['A', 'A'])]) :=
  (C3_payload_validation
    [(ivKey, .str (List.replicate 16 'A')),
     (tagKey, .str (List.replicate 22 'A')),
     (ctKey, .str ['A', 'A'])]
    (List.replicate 16 'A') (List.replicate 22 'A') ['A', 'A']
    (by decide) (by decide) (by decide)).2.2.2
    ⟨List.replicate 12 0, by decide, by decide⟩
    ⟨List.replicate 16 0, by decide, by decide⟩
    ⟨[0], by decide, by decide, by decide⟩

/-- C10: parsePayloadVal returns the parsed JSON object itself, not a
projection: an object whose iv, tag and ciphertext string fields satisfy
the validation is accepted even with additional unknown fields, and the
returned value is the whole object, extra fields included. -/
theorem C10_parse_preserves_value (fs : List (JsString × Json))
    (iv tag ct : JsString)
    (hiv : getStrField (Json.obj fs) ivKey = some iv)
    (htag : getStrField (Json.obj fs) tagKey = some tag)
    (hct : getStrField (Json.obj fs) ctKey = some ct)
    (aiv : assertB64UrlLen iv IV_LENGTH = true)
    (atag : assertB64UrlLen tag TAG_LENGTH = true)
    (h1 : b64urlTest ct = true) (h2 : 1 ≤ b64urlLen ct)
    (h3 : b64urlLen ct ≤ MAX_CIPHERTEXT_BYTES) :
    parsePayloadVal (Json.obj fs) = .ok (Json.obj fs) := by
  rw [parsePayloadVal_obj fs iv tag ct hiv htag hct]
  rw [aiv, if_neg (by decide), atag, if_neg (by decide), h1,
    if_neg (by decide), if_neg (by omega), if_neg (by omega)]

/-- Witness for C10 at a payload carrying an extra field, which is
preserved in the returned value. -/
theorem C10_parse_preserves_value_witness :
    parsePayloadVal c10Payload = .ok c10Payload :=
  C10_parse_preserves_value
    [(ivKey, .str (List.replicate 16 'A')),
     (tagKey, .str (List.replicate 22 'A')),
     (ctKey, .str ['A', 'A']),
     ("extra".toList, .str ['x'])]
    (List.replicate 16 'A') (List.replicate 22 'A') ['A', 'A']
    (by decide) (by decide) (by decide) (by decide) (by decide) (by decide)
    (by decide) (by decide)

-- ## String-length lemmas for the secret validators

theorem utf16_le_utf8 (s : JsString) :
    jsStringLength s ≤ utf8ByteLength s := by
  unfold jsStringLength utf8ByteLength
  induction s with
  | nil => simp
  | cons c t ih =>
      simp only [List.map_cons, List.sum_cons]
      have hc : utf16CharLen c ≤ utf8CharLen c := by
        unfold utf16CharLen utf8CharLen
        split_ifs <;> omega
      omega

theorem utf8ByteLength_replicate (n : Nat) (c : Char) :
    utf8ByteLength (List.replicate n c) = n * utf8CharLen c := by
  unfold utf8ByteLength
  induction n with
  | zero => simp
  | succ k ih =>
      rw [List.replicate_succ, List.map_cons, List.sum_cons, ih]
      ring

theorem jsStringLength_replicate (n : Nat) (c : Char) :
    jsStringLength (List.replicate n c) = n * utf16CharLen c := by
  unfold jsStringLength
  induction n with
  | zero => simp
  | succ k ih =>
      rw [List.replicate_succ, List.map_cons, List.sum_cons, ih]
      ring

/-- C2 (amended): the secret-length limit is measured in UTF-16 code
units (the JS string length), not UTF-8 bytes: the length validation and
the encrypt-stage check pass exactly when the string has at most 4096
code units; since a string never has more code units than UTF-8 bytes,
every secret of at most 4096 UTF-8 bytes still passes. -/
theorem C2_secret_length_semantics (s : JsString) :
    (validateSecretLength s = true ↔
      jsStringLength s ≤ MAX_SECRET_LENGTH) ∧
    (s ≠ [] → (encryptSecretCheck s = none ↔
      jsStringLength s ≤ MAX_SECRET_LENGTH)) ∧
    (utf8ByteLength s ≤ MAX_SECRET_LENGTH → validateSecretLength s = true) := by
  have hval : validateSecretLength s = true ↔
      jsStringLength s ≤ MAX_SECRET_LENGTH := by
    unfold validateSecretLength
    rw [decide_eq_true_eq]
  refine ⟨hval, ?_, ?_⟩
  · intro hne
    unfold encryptSecretCheck
    rw [if_neg (by rw [List.isEmpty_iff]; exact hne)]
    split_ifs with h
    · constructor
      · intro hc; cases hc
      · intro hc; omega
    · constructor
      · intro _; omega
      · intro _; rfl
  · intro h8
    rw [hval]
    have := utf16_le_utf8 s
    omega

/-- C2 counterexample: 2049 copies of a two-byte character make a secret
of 4098 UTF-8 bytes (over the claimed 4096-byte limit), yet both the
enstash validation and the encrypt-stage check accept it, because the
code measures code units (2049 here), not UTF-8 bytes. -/
theorem C2_counterexample :
    4097 ≤ utf8ByteLength c2CexSecret ∧
    validateSecretLength c2CexSecret = true ∧
    encryptSecretCheck c2CexSecret = none ∧
    performEnstashCheck c2CexSecret = none := by
  have hu8 : utf8ByteLength c2CexSecret = 4098 := by
    unfold c2CexSecret
    rw [utf8ByteLength_replicate,
      show utf8CharLen (Char.ofNat 233) = 2 from by decide]
  have hu16 : jsStringLength c2CexSecret = 2049 := by
    unfold c2CexSecret
    rw [jsStringLength_replicate,
      show utf16CharLen (Char.ofNat 233) = 1 from by decide]
  have htrim : jsTrim c2CexSecret = c2CexSecret := by
    apply jsTrim_all_not_ws
    intro c hc
    rw [List.eq_of_mem_replicate hc]
    decide
  have hvl : validateSecretLength c2CexSecret = true := by
    unfold validateSecretLength
    rw [decide_eq_true_eq, hu16]
    decide
  have hvc : validateSecretContent c2CexSecret = true := by
    unfold validateSecretContent
    rw [decide_eq_true_eq, htrim, hu16]
    omega
  refine ⟨by omega, hvl, ?_, ?_⟩
  · unfold encryptSecretCheck
    rw [if_neg (by rw [List.isEmpty_iff]; unfold c2CexSecret; simp)]
    rw [if_neg (by rw [hu16]; decide)]
  · unfold performEnstashCheck
    rw [hvc, hvl]
    rfl

/-- Witness for C2 at the single-character secret a. -/
theorem C2_secret_length_semantics_witness :
    validateSecretLength ['a'] = true :=
  (C2_secret_length_semantics ['a']).2.2 (by decide)

/-- C7 (amended): a secret that is empty or whitespace-only after
trimming fails enstash validation (ValidationError) before any network
call; the Cipher Engine encrypt check itself rejects only the truly empty
string, so a nonempty whitespace-only secret within the length cap passes
the encrypt-stage validation and is stopped only by enstash. -/
theorem C7_empty_secret (s : JsString) (h : jsTrim s = []) :
    performEnstashCheck s = some .validationEmpty ∧
    (s ≠ [] → jsStringLength s ≤ MAX_SECRET_LENGTH →
      encryptSecretCheck s = none) := by
  constructor
  · unfold performEnstashCheck
    have hvc : validateSecretContent s = false := by
      unfold validateSecretContent
      rw [decide_eq_false_iff_not, h]
      simp [jsStringLength]
    rw [hvc]
    rfl
  · intro hne hlen
    unfold encryptSecretCheck
    rw [if_neg (by rw [List.isEmpty_iff]; exact hne)]
    rw [if_neg (by omega)]

/-- C7 counterexample: the whitespace-only secret (three spaces) passes
the Cipher Engine encrypt validation (no EmptySecret failure there),
contrary to the claim; only enstash rejects it. -/
theorem C7_counterexample : encryptSecretCheck whitespaceSecret = none := by
  rfl

/-- Witness for C7 at the three-space secret. -/
theorem C7_empty_secret_witness :
    performEnstashCheck whitespaceSecret = some .validationEmpty ∧
    encryptSecretCheck whitespaceSecret = none := by
  have h := C7_empty_secret whitespaceSecret (by decide)
  exact ⟨h.1, h.2 (by decide) (by decide)⟩

/-- C8 (amended): performUnstash extracts the id by full token decoding
whenever the input contains a colon (so a malformed key portion does make
unstash fail, with the token error), and otherwise validates the raw,
untrimmed input as a UUID, failing with InvalidUUID exactly when that
check fails. -/
theorem C8_unstash_extraction (s : JsString) :
    (':' ∉ s → (performUnstashCheck s = .ok s ↔ validateUUID s = true)) ∧
    (':' ∈ s → ∀ d, decodeStashToken s = .ok d →
      performUnstashCheck s = .ok d.id) ∧
    (':' ∈ s → ∀ e, decodeStashToken s = .error e →
      performUnstashCheck s = .error (.tokenErr e)) := by
  refine ⟨?_, ?_, ?_⟩
  · intro hnc
    unfold performUnstashCheck
    rw [if_neg (fun hc => hnc (List.elem_iff.mp hc))]
    constructor
    · intro h
      split_ifs at h with hv
      simp at hv
      exact hv
    · intro hv
      rw [hv]
      rfl
  · intro hc d hd
    unfold performUnstashCheck
    rw [if_pos (List.elem_iff.mpr hc), hd]
    dsimp only
    have hu : validateUUID d.id = true := (decode_ok_facts s d hd).2.2.1
    rw [hu]
    rfl
  · intro hc e he
    unfold performUnstashCheck
    rw [if_pos (List.elem_iff.mpr hc), he]

/-- C8 counterexample: a token with a valid UUID-v4 id but a malformed
key portion makes unstash fail, although the id before the first colon is
a valid UUID, contradicting the claim that key malformation cannot make
unstash fail. -/
theorem C8_counterexample :
    isErr (performUnstashCheck c8CexToken) = true ∧
    validateUUID (beforeColon c8CexToken) = true := by
  constructor
  · rfl
  · rfl

/-- Witness for C8 at a bare valid UUID. -/
theorem C8_unstash_extraction_witness :
    performUnstashCheck sampleUuid = .ok sampleUuid :=
  ((C8_unstash_extraction sampleUuid).1 (by decide)).mpr (by decide)

/-- C9: the enstash HTTP request body is exactly the JSON serialization
of the three createPayload fields iv, tag and ciphertext, and is
independent of the key buffer: two encryption results that differ only in
keyBuffer produce identical bodies. -/
theorem C9_key_not_transmitted (er1 er2 : EncryptionResult)
    (hiv : er1.iv = er2.iv) (htag : er1.tag = er2.tag)
    (hct : er1.ciphertext = er2.ciphertext) :
    enstashRequestBody er1 = enstashRequestBody er2 ∧
    enstashRequestBody er1 =
      jsonStringify (Json.obj
        [(ivKey, .str (arrayBufferToBase64Url er1.iv)),
         (tagKey, .str (arrayBufferToBase64Url er1.tag)),
         (ctKey, .str (arrayBufferToBase64Url er1.ciphertext))]) := by
  constructor
  · unfold enstashRequestBody encodePayload payloadJson createPayload
    rw [hiv, htag, hct]
  · rfl

/-- Witness for C9 at two concrete results differing only in the key. -/
theorem C9_key_not_transmitted_witness :
    enstashRequestBody er1Sample = enstashRequestBody er2Sample :=
  (C9_key_not_transmitted er1Sample er2Sample rfl rfl rfl).1

end Stasher
